import Mathlib

/-
Verification of the üWave booth advancement core.

This file gives a shallow embedding of the two central modules of the
repository and proves the specified properties about them:

* `UWCore.Booth` embeds `src/plugins/booth.js`: the room state kept in the
  ephemeral store (`booth:historyID`, `booth:currentDJ`, the three vote sets
  and the `waitlist` list), the durable records it touches (users, playlists,
  playlist items, history entries), and the `advance` protocol including the
  distributed-lock step, the `EmptyPlaylist` retry recursion, the atomic
  `multi` update, publishing and restart recovery (`onStart`).

  Effects are made observable: an `AdvRes` record carries the final world,
  the sequence of lock requests (with their TTLs), the sequence of store
  reads/writes and the sequence of published topics.  The lock itself is an
  external collaborator (redlock); its outcomes are supplied by a `LockEnv`
  oracle.  The recursion of `advance` is expressed with a fuel parameter;
  `advanceAux_props` proves that the fuel chosen by `advance` is never
  exhausted, so the fuel is an artifact of totality only.

* `UWCore.Playlists` embeds `src/plugins/playlists.js` (and the validation
  performed by the mongoose schema in `src/models/PlaylistItem.js`): playlist
  item validation, start/end clamping, item creation with media resolution and
  grouping by source type, bulk insertion and removal, and item updates.
  JavaScript value typing and falsiness, where observable
  (`typeof`/`!value`/`||` defaulting), are modelled explicitly via `JsVal`
  and `Option` values.
-/

namespace UWCore

namespace Booth

/-- A user record as read by the booth (`User.findById`): only the id and the
`activePlaylist` reference matter here. -/
structure BUser where
  id : String
  activePlaylist : Option String
deriving Repr, DecidableEq

/-- A playlist as read by the booth: owner and the ordered list of playlist
item ids.  The source's `playlist.size` is the length of this list. -/
structure BPlaylist where
  id : String
  author : String
  media : List Nat
deriving Repr, DecidableEq

/-- A playlist item (with its media reference) as read by the booth. -/
structure BItem where
  id : Nat
  mediaRef : Nat
  artist : String
  title : String
  startT : Int
  endT : Int
deriving Repr, DecidableEq

/-- A durable history entry: ids of user/playlist/item, the media snapshot
(`media, artist, title, start, end`), `playedAt`, and the three vote arrays
populated when the entry is sealed. -/
structure BHistoryEntry where
  id : Nat
  userId : String
  playlistId : String
  itemId : Nat
  mMedia : Nat
  mArtist : String
  mTitle : String
  mStart : Int
  mEnd : Int
  playedAt : Int
  upvotes : List String
  downvotes : List String
  favorites : List String
deriving Repr, DecidableEq

/-- The ephemeral room state: `booth:historyID`, `booth:currentDJ`, the three
vote sets and the `waitlist` list. -/
structure RoomState where
  historyID : Option Nat
  currentDJ : Option String
  upvotes : List String
  downvotes : List String
  favorites : List String
  waitlist : List String
deriving Repr, DecidableEq

/-- The world visible to the booth: room state, durable records, the fresh-id
counter for new history entries, the current wall-clock time (epoch ms) and
the in-process timer (armed duration in ms). -/
structure World where
  room : RoomState
  users : List BUser
  playlists : List BPlaylist
  items : List BItem
  history : List BHistoryEntry
  nextId : Nat
  now : Int
  timer : Option Int
deriving Repr, DecidableEq

/-- Errors surfaced by the booth.  `outOfFuel` is an artifact of the fuel
encoding of the recursion; `advanceAux_props` shows `advance` never
produces it. -/
inductive Err where
  | advanceInProgress
  | emptyPlaylist
  | notFound
  | outOfFuel
deriving Repr, DecidableEq

/-- A lock request issued against the `booth:advancing` mutex, with its TTL in
milliseconds (`ms('2 seconds')` = 2000). -/
inductive LockReq where
  | acquireL (ttl : Int)
  | extendL (ttl : Int)
deriving Repr, DecidableEq

/-- Oracle for the distributed lock (an external collaborator): whether an
`acquire` and whether an `extend` attempt succeeds. -/
structure LockEnv where
  acquireOk : Bool
  extendOk : Bool
deriving Repr, DecidableEq

/-- Reads and writes against the ephemeral and durable stores, recorded in
program order. -/
inductive StoreOp where
  | readHistoryID
  | readHistoryEntry
  | readWaitlistHead
  | readCurrentDJ
  | readUser
  | readPlaylist
  | readItem
  | readVoteSets
  | writeHistoryEntry
  | insertHistoryEntry
  | readWaitlistLen
  | popWaitlist
  | pushWaitlist (u : String)
  | writeBoothMulti
  | writePlaylist
  | writeClearBooth
  | readWaitlistAll
deriving Repr, DecidableEq

/-- Options of `advance`: `remove` (skip without re-queueing the previous DJ)
and `publish` (suppress broadcasting when `false`).  A missing option is
falsy in the source, hence the defaults. -/
structure AdvOpts where
  remove : Bool := false
  publish : Option Bool := none
deriving Repr, DecidableEq

/-- An unsaved history entry (`new HistoryEntry({...})` in `getNextEntry`). -/
structure Pending where
  userId : String
  playlistId : String
  itemId : Nat
  mMedia : Nat
  mArtist : String
  mTitle : String
  mStart : Int
  mEnd : Int
deriving Repr, DecidableEq

deriving instance DecidableEq for Except

/-- Result of an `advance` call: the final world together with the observable
effect traces (lock requests, store operations, published topics). -/
structure AdvRes where
  world : World
  locks : List LockReq
  ops : List StoreOp
  pubs : List String
  result : Except Err (Option BHistoryEntry)
deriving Repr, DecidableEq

/-- JavaScript falsiness of a nullable string (`!userID`): `null` and the
empty string are falsy. -/
def jsFalsy : Option String → Bool
  | none => true
  | some s => s == ""

/-- The user-id selection of `getNextDJ` (booth.js lines 119-132):
`lindex('waitlist', 0)`, falling back to `booth:currentDJ` when that is falsy
and `options.remove` is not set, and `null` when the result is still falsy. -/
def getNextUserId (remove : Bool) (room : RoomState) : Option String :=
  let fromList := room.waitlist.head?
  let userID := if jsFalsy fromList && !remove then room.currentDJ else fromList
  if jsFalsy userID then none else userID

/-- `getNextDJ`: the selected user id resolved against the durable user
records (`User.findById`). -/
def getNextDJ (remove : Bool) (w : World) : Option BUser :=
  match getNextUserId remove w.room with
  | none => none
  | some uid => w.users.find? (fun u => u.id == uid)

/-- `getCurrentEntry`: read `booth:historyID` and load the referenced history
entry, if any.  Also returns the store reads performed. -/
def getCurrentEntry (w : World) : Option BHistoryEntry × List StoreOp :=
  match w.room.historyID with
  | none => (none, [StoreOp.readHistoryID])
  | some h => (w.history.find? (fun e => e.id == h), [StoreOp.readHistoryID, StoreOp.readHistoryEntry])

/-- The history entry constructed by `getNextEntry` from a user, their
playlist and its first item (with the media snapshot fields copied). -/
def mkPending (user : BUser) (pl : BPlaylist) (item : BItem) : Pending :=
  { userId := user.id
    playlistId := pl.id
    itemId := item.id
    mMedia := item.mediaRef
    mArtist := item.artist
    mTitle := item.title
    mStart := item.startT
    mEnd := item.endT }

/-- `getNextEntry` (booth.js lines 139-168): select the next DJ, return `none`
when there is no user or no active playlist, fail with `notFound` when the
active playlist does not resolve (`getUserPlaylist`), raise `emptyPlaylist`
when the playlist has no items, and otherwise build the unsaved entry from
the first item. -/
def getNextEntry (remove : Bool) (w : World) : Except Err (Option Pending) × List StoreOp :=
  let ops0 := if jsFalsy w.room.waitlist.head? && !remove
              then [StoreOp.readWaitlistHead, StoreOp.readCurrentDJ]
              else [StoreOp.readWaitlistHead]
  match getNextUserId remove w.room with
  | none => (.ok none, ops0)
  | some uid =>
    match w.users.find? (fun u => u.id == uid) with
    | none => (.ok none, ops0 ++ [StoreOp.readUser])
    | some user =>
      match user.activePlaylist with
      | none => (.ok none, ops0 ++ [StoreOp.readUser])
      | some plid =>
        match w.playlists.find? (fun p => p.id == plid && p.author == user.id) with
        | none => (.error .notFound, ops0 ++ [StoreOp.readUser, StoreOp.readPlaylist])
        | some pl =>
          match pl.media with
          | [] => (.error .emptyPlaylist, ops0 ++ [StoreOp.readUser, StoreOp.readPlaylist])
          | itemId :: _ =>
            match w.items.find? (fun it => it.id == itemId) with
            | none => (.error .notFound, ops0 ++ [StoreOp.readUser, StoreOp.readPlaylist, StoreOp.readItem])
            | some item =>
              (.ok (some (mkPending user pl item)), ops0 ++ [StoreOp.readUser, StoreOp.readPlaylist, StoreOp.readItem])

/-- `cycleWaitlist` (booth.js lines 175-185): if the waitlist has items, pop
the head, and push the previous DJ's user id to the tail when a previous
entry exists and `options.remove` is not set. -/
def cycleWaitlist (previous : Option BHistoryEntry) (remove : Bool) (room : RoomState) :
    RoomState × List StoreOp :=
  match room.waitlist with
  | [] => (room, [StoreOp.readWaitlistLen])
  | _ :: rest =>
    match previous with
    | some p =>
      if remove then
        ({ room with waitlist := rest }, [StoreOp.readWaitlistLen, StoreOp.popWaitlist])
      else
        ({ room with waitlist := rest ++ [p.userId] },
         [StoreOp.readWaitlistLen, StoreOp.popWaitlist, StoreOp.pushWaitlist p.userId])
    | none => ({ room with waitlist := rest }, [StoreOp.readWaitlistLen, StoreOp.popWaitlist])

/-- `saveStats`: read the three vote sets and attach them to the previous
history entry, saving it durably (sealing). -/
def saveStats (w : World) (previous : Option BHistoryEntry) : World :=
  match previous with
  | none => w
  | some p =>
    { w with history := w.history.map (fun h =>
        if h.id == p.id then
          { h with upvotes := w.room.upvotes
                   downvotes := w.room.downvotes
                   favorites := w.room.favorites }
        else h) }

/-- `next.save()`: persist the new history entry, assigning its id from the
fresh-id counter and stamping `playedAt` with the current time. -/
def saveEntry (w : World) (p : Pending) : BHistoryEntry × World :=
  let e : BHistoryEntry :=
    { id := w.nextId
      userId := p.userId
      playlistId := p.playlistId
      itemId := p.itemId
      mMedia := p.mMedia
      mArtist := p.mArtist
      mTitle := p.mTitle
      mStart := p.mStart
      mEnd := p.mEnd
      playedAt := w.now
      upvotes := []
      downvotes := []
      favorites := [] }
  (e, { w with history := w.history ++ [e], nextId := w.nextId + 1 })

/-- One command of the atomic `multi` write in `update` (booth.js lines
201-207).  The `del` of the three vote sets is a single command. -/
inductive WOp where
  | delVoteSets
  | setHistoryID (id : Nat)
  | setCurrentDJ (uid : String)
deriving Repr, DecidableEq

/-- Apply one `multi` command to the room state. -/
def applyWOp (room : RoomState) : WOp → RoomState
  | .delVoteSets => { room with upvotes := [], downvotes := [], favorites := [] }
  | .setHistoryID i => { room with historyID := some i }
  | .setCurrentDJ u => { room with currentDJ := some u }

/-- Apply an atomic write sequence (`multi().…​.exec()`) as one transition. -/
def applyMulti (ops : List WOp) (room : RoomState) : RoomState :=
  ops.foldl applyWOp room

/-- The command sequence of `update`: delete the three vote sets, set
`booth:historyID` to the new entry's id and `booth:currentDJ` to the new
DJ's user id. -/
def updateOps (next : BHistoryEntry) : List WOp :=
  [.delVoteSets, .setHistoryID next.id, .setCurrentDJ next.userId]

/-- `clear`: delete the five booth keys (history id, current DJ, vote sets).
The waitlist is not a booth key and is untouched. -/
def clearRoom (room : RoomState) : RoomState :=
  { room with historyID := none, currentDJ := none, upvotes := [], downvotes := [], favorites := [] }

/-- `cyclePlaylist`: move the head item of the playlist to its tail and save. -/
def cyclePlaylistW (w : World) (plid : String) : World :=
  { w with playlists := w.playlists.map (fun p =>
      if p.id == plid then
        { p with media := match p.media with | [] => [] | x :: xs => xs ++ [x] }
      else p) }

/-- The topics published by `publish` in program order: `advance:complete`
always first, `playlist:cycle` and `user:play` only when a next entry exists,
`waitlist:update` always last. -/
def publishTopics (next : Option BHistoryEntry) : List String :=
  match next with
  | some _ => ["advance:complete", "playlist:cycle", "user:play", "waitlist:update"]
  | none => ["advance:complete", "waitlist:update"]

/-- The tail of `advance` once `getNextEntry` has produced a result: seal the
previous entry, persist the next entry or stop the timer, rotate the
waitlist, commit the atomic `update` plus playlist cycle plus timer (or
`clear` everything), and publish unless `options.publish === false`. -/
def finishAdvance (opts : AdvOpts) (req : LockReq) (readOps : List StoreOp)
    (previous : Option BHistoryEntry) (nextP : Option Pending) (w : World) : AdvRes :=
  let sealOps : List StoreOp :=
    match previous with
    | some _ => [StoreOp.readVoteSets, StoreOp.writeHistoryEntry]
    | none => []
  let pubOps : List StoreOp := if opts.publish == some false then [] else [StoreOp.readWaitlistAll]
  match nextP with
  | none =>
    let w1 := saveStats w previous
    let w2 := { w1 with timer := none }
    let cyc := cycleWaitlist previous opts.remove w2.room
    let w3 := { w2 with room := cyc.1 }
    let w4 := { w3 with room := clearRoom w3.room }
    let pubs := if opts.publish == some false then [] else publishTopics none
    { world := w4
      locks := [req]
      ops := readOps ++ sealOps ++ cyc.2 ++ [StoreOp.writeClearBooth] ++ pubOps
      pubs := pubs
      result := .ok none }
  | some pending =>
    let w1 := saveStats w previous
    let se := saveEntry w1 pending
    let saved := se.1
    let w2 := se.2
    let cyc := cycleWaitlist previous opts.remove w2.room
    let w3 := { w2 with room := cyc.1 }
    let w4 := { w3 with room := applyMulti (updateOps saved) w3.room }
    let w5 := cyclePlaylistW w4 saved.playlistId
    let w6 := { w5 with timer := some ((saved.mEnd - saved.mStart) * 1000) }
    let pubs := if opts.publish == some false then [] else publishTopics (some saved)
    { world := w6
      locks := [req]
      ops := readOps ++ sealOps ++ [StoreOp.insertHistoryEntry] ++ cyc.2
             ++ [StoreOp.writeBoothMulti, StoreOp.writePlaylist] ++ pubOps
      pubs := pubs
      result := .ok (some saved) }

/-- `advance` (booth.js lines 276-339), with a fuel parameter for the
`EmptyPlaylist` retry recursion.  First the lock step: extend the passed
lease or acquire `booth:advancing`, both with TTL 2000 ms; on failure, fail
with `advanceInProgress` having touched nothing.  Then read the previous
entry and compute the next one; on `emptyPlaylist`, rotate the waitlist and
retry with `remove := true`, passing the lease (so the retry extends it);
other errors propagate.  Otherwise finish the advance. -/
def advanceAux : Nat → AdvOpts → Bool → LockEnv → World → AdvRes
  | 0, _, _, _, w => { world := w, locks := [], ops := [], pubs := [], result := .error .outOfFuel }
  | fuel+1, opts, reuseLock, env, w =>
    let req := if reuseLock then LockReq.extendL 2000 else LockReq.acquireL 2000
    if (if reuseLock then env.extendOk else env.acquireOk) then
      let previous := (getCurrentEntry w).1
      let readOps := (getCurrentEntry w).2 ++ (getNextEntry opts.remove w).2
      match (getNextEntry opts.remove w).1 with
      | .error .emptyPlaylist =>
        let cyc := cycleWaitlist previous opts.remove w.room
        let r := advanceAux fuel { opts with remove := true } true env { w with room := cyc.1 }
        { world := r.world
          locks := req :: r.locks
          ops := readOps ++ cyc.2 ++ r.ops
          pubs := r.pubs
          result := r.result }
      | .error e =>
        { world := w, locks := [req], ops := readOps, pubs := [], result := .error e }
      | .ok nextP => finishAdvance opts req readOps previous nextP w
    else
      { world := w, locks := [req], ops := [], pubs := [], result := .error .advanceInProgress }

/-- `advance` with enough fuel for the retry recursion (each retry beyond the
first consumes a waitlist member; see `advanceAux_props`). -/
def advance (opts : AdvOpts) (reuseLock : Bool) (env : LockEnv) (w : World) : AdvRes :=
  advanceAux (w.room.waitlist.length + 2) opts reuseLock env w

/-- Measure of the retry recursion of `advance`: waitlist length, plus one
when `remove` is not yet set (the first retry may re-queue the previous DJ
instead of consuming a member). -/
def advMeasure (remove : Bool) (w : World) : Nat :=
  w.room.waitlist.length + (if remove then 0 else 1)

/-- The action taken by `onStart` (booth.js lines 49-65). -/
inductive StartAction where
  | idle
  | armTimer (msLeft : Int)
  | advanceNow
deriving Repr, DecidableEq

/-- `onStart`: restart recovery.  If no current entry, stay idle.  Otherwise
compute `endTime = playedAt + (end - start) * 1000`; arm a timer for the
remainder when `endTime > now`, else advance immediately. -/
def onStart (w : World) : StartAction :=
  match (getCurrentEntry w).1 with
  | none => .idle
  | some e =>
    let duration := (e.mEnd - e.mStart) * 1000
    let endTime := e.playedAt + duration
    if endTime > w.now then .armTimer (endTime - w.now) else .advanceNow

end Booth

namespace Playlists

/-- A JavaScript value, as far as the playlist item validation can observe it
(`typeof` checks and `String(...)` coercion). -/
inductive JsVal where
  | vstr (s : String)
  | vnum (n : Int)
  | vbool (b : Bool)
  | vundef
deriving Repr, DecidableEq

/-- `typeof v === 'string'`. -/
def JsVal.isString : JsVal → Bool
  | .vstr _ => true
  | _ => false

/-- `typeof v === 'number'`. -/
def JsVal.isNumber : JsVal → Bool
  | .vnum _ => true
  | _ => false

/-- `String(v)` for the values above. -/
def jsToString : JsVal → String
  | .vstr s => s
  | .vnum n => toString n
  | .vbool b => if b then "true" else "false"
  | .vundef => "undefined"

/-- The fields of a playlist item input object that the repository reads:
`sourceType`/`sourceID` (arbitrary JS values until validated), optional
artist/title labels and optional start/end trims.  A missing numeric field
is `none`; an explicit `0` is falsy in the source, which `getStartEnd`
observes. -/
structure ItemProps where
  sourceType : JsVal
  sourceID : JsVal
  artist : Option String
  title : Option String
  startT : Option Int
  endT : Option Int
deriving Repr, DecidableEq

/-- One element of the `items` argument: an object, `null` (whose property
access would crash), or a non-object primitive. -/
inductive ItemInput where
  | obj (props : ItemProps)
  | nullItem
  | nonObject (v : JsVal)
deriving Repr, DecidableEq

/-- A crash while evaluating the validation predicate (property access on
`null`, which passes the `typeof item === 'object'` test). -/
inductive JsErr where
  | typeError
deriving Repr, DecidableEq

/-- `isValidPlaylistItem` (playlists.js lines 8-12): the item must be an
object whose `sourceType` is a string and whose `sourceID` is a string or a
number.  `null` has `typeof 'object'` and crashes on the property access. -/
def isValidPlaylistItem : ItemInput → Except JsErr Bool
  | .obj p => .ok (p.sourceType.isString && (p.sourceID.isString || p.sourceID.isNumber))
  | .nullItem => .error .typeError
  | .nonObject _ => .ok false

/-- `items.every(isValidPlaylistItem)`, with JavaScript's short-circuit. -/
def everyValid : List ItemInput → Except JsErr Bool
  | [] => .ok true
  | i :: rest =>
    match isValidPlaylistItem i with
    | .error e => .error e
    | .ok true => everyValid rest
    | .ok false => .ok false

/-- A canonical media record (durable, unique per source type and id). -/
structure PMedia where
  id : Nat
  sourceType : String
  sourceID : String
  duration : Int
  artist : String
  title : String
deriving Repr, DecidableEq

/-- Media descriptor returned by a source resolver. -/
structure PMediaProps where
  sourceType : String
  sourceID : String
  duration : Int
  artist : String
  title : String
deriving Repr, DecidableEq

/-- A persisted playlist item record.  (The schema's NFKC normalization
setter on the label fields is not modelled; labels are stored as given.) -/
structure StoredItem where
  id : Nat
  mediaId : Nat
  artist : String
  title : String
  startT : Int
  endT : Int
deriving Repr, DecidableEq

/-- A playlist: owner and ordered list of playlist item ids. -/
structure PPlaylist where
  id : String
  author : String
  name : String
  media : List Nat
deriving Repr, DecidableEq

/-- Errors of the playlist repository.  `badRequest` is the invalid-item
rejection; `typeError` a JS crash; `sourceError` a resolver failure;
`validationError` a mongoose schema rejection (`required` labels, `min: 0`
trims, per `src/models/PlaylistItem.js`); `couldNotSave` the wrapped save
failure of `createItem`. -/
inductive PErr where
  | notFound
  | badRequest
  | typeError
  | sourceError
  | validationError
  | couldNotSave
deriving Repr, DecidableEq

/-- The world of the playlist repository: playlists, items, media, fresh-id
counters, and the source resolver (an external collaborator, as an oracle
from source type and stringified source id to a media descriptor). -/
structure PWorld where
  playlists : List PPlaylist
  items : List StoredItem
  medias : List PMedia
  nextItemId : Nat
  nextMediaId : Nat
  resolve : String → String → Option PMediaProps

/-- `getStartEnd` (playlists.js lines 17-30): clamp the requested start/end
against the media duration.  A falsy (missing or zero) or negative start
becomes 0, a start past the duration becomes the duration; a falsy end or an
end past the duration becomes the duration, an end below the (clamped) start
becomes that start. -/
def getStartEnd (item : ItemProps) (media : PMedia) : Int × Int :=
  let start : Int :=
    match item.startT with
    | none => 0
    | some s =>
      if s == 0 || s < 0 then 0
      else if s > media.duration then media.duration
      else s
  let endV : Int :=
    match item.endT with
    | none => media.duration
    | some e =>
      if e == 0 || e > media.duration then media.duration
      else if e < start then start
      else e
  (start, endV)

/-- JavaScript `a || b` for an optional string: the default is used when the
value is absent or the empty string. -/
def strOr : Option String → String → String
  | none, d => d
  | some s, d => if s == "" then d else s

/-- The fields of a playlist item about to be created. -/
structure NewItemProps where
  mediaId : Nat
  artist : String
  title : String
  startT : Int
  endT : Int
deriving Repr, DecidableEq

/-- `toPlaylistItem` (playlists.js lines 32-42): reference the media, default
artist/title from the media when the input's are falsy, and clamp
start/end. -/
def toPlaylistItem (itemProps : ItemProps) (media : PMedia) : NewItemProps :=
  let se := getStartEnd itemProps media
  { mediaId := media.id
    artist := strOr itemProps.artist media.artist
    title := strOr itemProps.title media.title
    startT := se.1
    endT := se.2 }

/-- `getPlaylist` by id: `NotFound` when absent. -/
def getPlaylist (w : PWorld) (plid : String) : Except PErr PPlaylist :=
  match w.playlists.find? (fun p => p.id == plid) with
  | none => .error .notFound
  | some p => .ok p

/-- Replace the media list of the playlist with the given id (the
`playlist.save()` after assigning `playlist.media`). -/
def setPlaylistMedia (w : PWorld) (plid : String) (m : List Nat) : PWorld :=
  { w with playlists := w.playlists.map (fun p => if p.id == plid then { p with media := m } else p) }

/-- The ordered media list of a playlist in a world (empty when absent). -/
def playlistMedia (w : PWorld) (plid : String) : List Nat :=
  match w.playlists.find? (fun p => p.id == plid) with
  | none => []
  | some p => p.media

/-- The media record persisted for a resolver descriptor, with a fresh id. -/
def mediaOf (w : PWorld) (mp : PMediaProps) : PMedia :=
  { id := w.nextMediaId, sourceType := mp.sourceType, sourceID := mp.sourceID,
    duration := mp.duration, artist := mp.artist, title := mp.title }

/-- Persist one new media record (`Media.create`). -/
def addMedia (w : PWorld) (mp : PMediaProps) : PWorld :=
  { w with medias := w.medias ++ [mediaOf w mp], nextMediaId := w.nextMediaId + 1 }

/-- `getMedia` (playlists.js lines 190-200): find the media by source type
and id, otherwise resolve it via the source and persist the returned
descriptor. -/
def getMedia (w : PWorld) (sourceType sourceID : String) : PWorld × Except PErr PMedia :=
  match w.medias.find? (fun m => m.sourceType == sourceType && m.sourceID == sourceID) with
  | some m => (w, .ok m)
  | none =>
    match w.resolve sourceType sourceID with
    | none => (w, .error .sourceError)
    | some mp => (addMedia w mp, .ok (mediaOf w mp))

/-- Whether a new item passes the `PlaylistItem` schema validation on save:
`artist` and `title` are `required` (empty strings fail), `start` and `end`
have `min: 0`. -/
def passesItemSchema (p : NewItemProps) : Bool :=
  !(p.artist == "") && !(p.title == "") && decide (0 ≤ p.startT) && decide (0 ≤ p.endT)

/-- The playlist item record persisted for new item fields, with a fresh id. -/
def itemOf (w : PWorld) (np : NewItemProps) : StoredItem :=
  { id := w.nextItemId, mediaId := np.mediaId, artist := np.artist,
    title := np.title, startT := np.startT, endT := np.endT }

/-- Persist one new playlist item record. -/
def addItem (w : PWorld) (np : NewItemProps) : PWorld :=
  { w with items := w.items ++ [itemOf w np], nextItemId := w.nextItemId + 1 }

/-- `createItem` (playlists.js lines 205-218): resolve the media, build the
item via `toPlaylistItem` and save it; a save failure is wrapped into the
generic could-not-save error. -/
def createItem (w : PWorld) (props : ItemProps) : PWorld × Except PErr StoredItem :=
  match (getMedia w (jsToString props.sourceType) (jsToString props.sourceID)).2 with
  | .error e => ((getMedia w (jsToString props.sourceType) (jsToString props.sourceID)).1, .error e)
  | .ok media =>
    if passesItemSchema (toPlaylistItem props media) then
      (addItem (getMedia w (jsToString props.sourceType) (jsToString props.sourceID)).1
         (toPlaylistItem props media),
       .ok (itemOf (getMedia w (jsToString props.sourceType) (jsToString props.sourceID)).1
         (toPlaylistItem props media)))
    else ((getMedia w (jsToString props.sourceType) (jsToString props.sourceID)).1,
          .error .couldNotSave)

/-- `Media.create` over a list of resolver descriptors, assigning fresh ids. -/
def createMedias (w : PWorld) : List PMediaProps → List PMedia × PWorld
  | [] => ([], w)
  | p :: rest =>
    let r := createMedias (addMedia w p) rest
    (mediaOf w p :: r.1, r.2)

/-- Pair each source item with its media (`allMedias.find(...)`), building the
new item fields; a missing media crashes (`toPlaylistItem` on `undefined`). -/
def matchMedias (allMedias : List PMedia) (ps : List ItemProps) : Except PErr (List NewItemProps) :=
  match ps with
  | [] => .ok []
  | p :: rest =>
    match allMedias.find? (fun m => m.sourceID == jsToString p.sourceID) with
    | none => .error .typeError
    | some m =>
      match matchMedias allMedias rest with
      | .error e => .error e
      | .ok tl => .ok (toPlaylistItem p m :: tl)

/-- The group key of an input item: the value of its `sourceType` property
(a string for every valid item). -/
def sourceTypeKey (p : ItemProps) : String :=
  jsToString p.sourceType

/-- The keys of `groupBy(items, 'sourceType')` in first-occurrence order. -/
def dedupKeys : List String → List String
  | [] => []
  | k :: rest =>
    let tl := dedupKeys rest
    k :: tl.filter (fun x => x != k)

/-- The medias of one source-type group already known to the durable store
(`Media.find` with `$in` over the group's source ids). -/
def groupKnown (w : PWorld) (st : String) (sourceItems : List ItemProps) : List PMedia :=
  w.medias.filter (fun m =>
    m.sourceType == st && (sourceItems.map (fun p => jsToString p.sourceID)).contains m.sourceID)

/-- The resolver descriptors for the group's unknown source ids (one batched
`source.get` call; ids the resolver cannot return are absent). -/
def groupResolved (w : PWorld) (st : String) (sourceItems : List ItemProps) : List PMediaProps :=
  (sourceItems.filterMap (fun p =>
    if (groupKnown w st sourceItems).any (fun m => m.sourceID == jsToString p.sourceID) then none
    else some (jsToString p.sourceID))).filterMap (fun sid => w.resolve st sid)

/-- One iteration of the per-source-type loop of `createPlaylistItems`
(playlists.js lines 235-260): fetch known medias for the group in one query,
resolve the unknown ids via the source in one batched call, persist the new
medias, and build the new item fields against the combined media list. -/
def processGroup (w : PWorld) (st : String) (sourceItems : List ItemProps) :
    PWorld × Except PErr (List NewItemProps) :=
  let cm := createMedias w (groupResolved w st sourceItems)
  (cm.2, matchMedias (groupKnown w st sourceItems ++ cm.1) sourceItems)

/-- The per-source-type loop over all groups, in key order, concatenating the
new item fields. -/
def processGroups (w : PWorld) (props : List ItemProps) : List String →
    PWorld × Except PErr (List NewItemProps)
  | [] => (w, .ok [])
  | st :: rest =>
    match (processGroup w st (props.filter (fun p => sourceTypeKey p == st))).2 with
    | .error e => ((processGroup w st (props.filter (fun p => sourceTypeKey p == st))).1, .error e)
    | .ok is1 =>
      ((processGroups (processGroup w st (props.filter (fun p => sourceTypeKey p == st))).1
          props rest).1,
       match (processGroups (processGroup w st (props.filter (fun p => sourceTypeKey p == st))).1
          props rest).2 with
       | .error e => .error e
       | .ok tl => .ok (is1 ++ tl))

/-- `PlaylistItem.create(playlistItems)`: validate against the schema and
persist each item, assigning fresh ids in order. -/
def materializeItems (w : PWorld) : List NewItemProps → PWorld × Except PErr (List StoredItem)
  | [] => (w, .ok [])
  | p :: rest =>
    if passesItemSchema p then
      ((materializeItems (addItem w p) rest).1,
       match (materializeItems (addItem w p) rest).2 with
       | .error e => .error e
       | .ok tl => .ok (itemOf w p :: tl))
    else (w, .error .validationError)

/-- The object payload of an input item, when it is an object. -/
def itemObj : ItemInput → Option ItemProps
  | .obj p => some p
  | _ => none

/-- The object payloads of the input items (every valid item is an object). -/
def inputProps (items : List ItemInput) : List ItemProps :=
  items.filterMap itemObj

/-- The `groupBy` keys of the input items, in first-occurrence order. -/
def inputKeys (items : List ItemInput) : List String :=
  dedupKeys ((inputProps items).map sourceTypeKey)

/-- `createPlaylistItems` (playlists.js lines 223-265): validate every input
item (rejecting with the bad-request error before any other work), group the
items by source type, process each group, and bulk-create the items. -/
def createPlaylistItems (w : PWorld) (items : List ItemInput) :
    PWorld × Except PErr (List StoredItem) :=
  match everyValid items with
  | .error _ => (w, .error .typeError)
  | .ok false => (w, .error .badRequest)
  | .ok true =>
    match (processGroups w (inputProps items) (inputKeys items)).2 with
    | .error e => ((processGroups w (inputProps items) (inputKeys items)).1, .error e)
    | .ok newProps =>
      materializeItems (processGroups w (inputProps items) (inputKeys items)).1 newProps

/-- The result of `addPlaylistItems`. -/
structure AddResult where
  added : List StoredItem
  afterID : Option String
  playlistSize : Nat
deriving Repr, DecidableEq

/-- Whether a media id matches the `after` argument
(`` `${item}` === after ``; `after = null` matches nothing). -/
def afterMatches (after : Option String) (itemId : Nat) : Bool :=
  match after with
  | some a => toString itemId == a
  | none => false

/-- The insertion index of `addPlaylistItems`: directly after the item whose
stringified id equals `after` (`findIndex` plus one), at the head when
`after` is null or not found (`findIndex` gives -1). -/
def afterIndex (media : List Nat) (after : Option String) : Nat :=
  match media.findIdx? (afterMatches after) with
  | some i => i + 1
  | none => 0

/-- `oldMedia.slice(0, k) ++ newIds ++ oldMedia.slice(k)`. -/
def insertAt (media : List Nat) (k : Nat) (ids : List Nat) : List Nat :=
  media.take k ++ ids ++ media.drop k

/-- `addPlaylistItems` (playlists.js lines 270-288): load the playlist,
create the items, and splice the new ids in directly after the item named by
`after` (at the head when `after` is null or not found). -/
def addPlaylistItems (w : PWorld) (plid : String) (items : List ItemInput)
    (after : Option String) : PWorld × Except PErr AddResult :=
  match getPlaylist w plid with
  | .error e => (w, .error e)
  | .ok playlist =>
    match (createPlaylistItems w items).2 with
    | .error e => ((createPlaylistItems w items).1, .error e)
    | .ok newItems =>
      (setPlaylistMedia (createPlaylistItems w items).1 plid
         (insertAt playlist.media (afterIndex playlist.media after)
           (newItems.map (fun it => it.id))),
       .ok { added := newItems, afterID := after,
             playlistSize := (insertAt playlist.media (afterIndex playlist.media after)
               (newItems.map (fun it => it.id))).length })

/-- `removePlaylistItems` (playlists.js lines 315-336): split the playlist's
media between the stringified ids to remove and the rest, keep the rest in
order, and delete the removed item records. -/
def removePlaylistItems (w : PWorld) (plid : String) (itemsOrIDs : List String) :
    PWorld × Except PErr Unit :=
  match getPlaylist w plid with
  | .error e => (w, .error e)
  | .ok playlist =>
    let stringIDs := itemsOrIDs
    let toRemove := playlist.media.filter (fun i => stringIDs.contains (toString i))
    let toKeep := playlist.media.filter (fun i => !stringIDs.contains (toString i))
    let w1 := setPlaylistMedia w plid toKeep
    let w2 := { w1 with items := w1.items.filter (fun it => !toRemove.contains it.id) }
    (w2, .ok ())

/-- The patch accepted by `updatePlaylistItem`: the mutable fields. -/
structure ItemPatch where
  artist : Option String := none
  title : Option String := none
  startT : Option Int := none
  endT : Option Int := none
deriving Repr, DecidableEq

/-- `Object.assign(item, patch)`: fields present in the patch overwrite the
item's fields verbatim. -/
def applyPatch (it : StoredItem) (p : ItemPatch) : StoredItem :=
  { it with artist := p.artist.getD it.artist
            title := p.title.getD it.title
            startT := p.startT.getD it.startT
            endT := p.endT.getD it.endT }

/-- Whether a stored item passes the schema validation on save. -/
def passesStoredSchema (it : StoredItem) : Bool :=
  !(it.artist == "") && !(it.title == "") && decide (0 ≤ it.startT) && decide (0 ≤ it.endT)

/-- `updatePlaylistItem` (playlists.js lines 290-296): load the item, assign
the patch and save.  No re-clamping happens; only the schema validation
applies. -/
def updatePlaylistItem (w : PWorld) (itemId : Nat) (patch : ItemPatch) :
    PWorld × Except PErr StoredItem :=
  match w.items.find? (fun it => it.id == itemId) with
  | none => (w, .error .notFound)
  | some it =>
    let it1 := applyPatch it patch
    if passesStoredSchema it1 then
      ({ w with items := w.items.map (fun j => if j.id == itemId then it1 else j) }, .ok it1)
    else (w, .error .validationError)

end Playlists

namespace Booth

/-- Lock oracle where both acquiring and extending succeed. -/
def envOK : LockEnv := { acquireOk := true, extendOk := true }

/-- Lock oracle where both acquiring and extending fail (contention). -/
def envDown : LockEnv := { acquireOk := false, extendOk := false }

/-- A room with a lone DJ `u1` whose active playlist `p1` has items. -/
def cwOK : World :=
  { room := { historyID := none, currentDJ := some "u1", upvotes := [], downvotes := [],
              favorites := [], waitlist := [] }
    users := [{ id := "u1", activePlaylist := some "p1" }]
    playlists := [{ id := "p1", author := "u1", media := [101, 102] }]
    items := [{ id := 101, mediaRef := 201, artist := "A", title := "T", startT := 0, endT := 30 }]
    history := []
    nextId := 1
    now := 5000
    timer := none }

/-- The history entry that advancing `cwOK` persists and returns. -/
def cwEntry : BHistoryEntry :=
  { id := 1, userId := "u1", playlistId := "p1", itemId := 101, mMedia := 201,
    mArtist := "A", mTitle := "T", mStart := 0, mEnd := 30, playedAt := 5000,
    upvotes := [], downvotes := [], favorites := [] }

/-- The history entry of the play in progress in `cw4` and `roomBusy`. -/
def prevEntry : BHistoryEntry :=
  { id := 1, userId := "u1", playlistId := "p1", itemId := 5, mMedia := 9,
    mArtist := "A", mTitle := "T", mStart := 0, mEnd := 30, playedAt := 0,
    upvotes := [], downvotes := [], favorites := [] }

/-- A room where `u1` is playing (entry `prevEntry`) with `u2` waiting, and
both users' active playlists are empty. -/
def cw4 : World :=
  { room := { historyID := some 1, currentDJ := some "u1", upvotes := [], downvotes := [],
              favorites := [], waitlist := ["u2"] }
    users := [{ id := "u1", activePlaylist := some "p1" }, { id := "u2", activePlaylist := some "p2" }]
    playlists := [{ id := "p1", author := "u1", media := [] }, { id := "p2", author := "u2", media := [] }]
    items := []
    history := [prevEntry]
    nextId := 2
    now := 40000
    timer := some 1 }

/-- The room state of `cw4`, used to exercise DJ selection and rotation. -/
def roomBusy : RoomState :=
  { historyID := some 1, currentDJ := some "u1", upvotes := [], downvotes := [],
    favorites := [], waitlist := ["u2"] }

/-- A history entry that started at t0 = 100000 ms playing seconds 0-30. -/
def recEntry : BHistoryEntry :=
  { id := 7, userId := "u1", playlistId := "p1", itemId := 5, mMedia := 9,
    mArtist := "A", mTitle := "T", mStart := 0, mEnd := 30, playedAt := 100000,
    upvotes := [], downvotes := [], favorites := [] }

/-- A process starting 10 s into the 30 s play of `recEntry`. -/
def cwRec1 : World :=
  { room := { historyID := some 7, currentDJ := some "u1", upvotes := [], downvotes := [],
              favorites := [], waitlist := [] }
    users := [], playlists := [], items := []
    history := [recEntry]
    nextId := 8
    now := 110000
    timer := none }

/-- A process starting 40 s after the 30 s play of `recEntry` began. -/
def cwRec2 : World :=
  { cwRec1 with now := 140000 }

end Booth

namespace Playlists

/-- A world with one playlist `p` holding item 1 over the known media `x`. -/
def pw9 : PWorld :=
  { playlists := [{ id := "p", author := "a", name := "P", media := [1] }]
    items := [{ id := 1, mediaId := 1, artist := "X", title := "Y", startT := 0, endT := 30 }]
    medias := [{ id := 1, sourceType := "yt", sourceID := "x", duration := 30, artist := "MA", title := "MT" }]
    nextItemId := 2
    nextMediaId := 2
    resolve := fun _ _ => none }

/-- Two well-formed input items over the known media of `pw9`. -/
def citems9 : List ItemInput :=
  [ .obj { sourceType := .vstr "yt", sourceID := .vstr "x", artist := some "AA", title := none,
           startT := some 5, endT := some 40 },
    .obj { sourceType := .vstr "yt", sourceID := .vstr "x", artist := none, title := some "TT",
           startT := none, endT := some 0 } ]

/-- An input batch with an invalid member (a bare number). -/
def citemsBad : List ItemInput :=
  [ .obj { sourceType := .vstr "yt", sourceID := .vstr "x", artist := none, title := none,
           startT := none, endT := none },
    .nonObject (.vnum 3) ]

/-- A world with a single item trimmed to 0-10 of a 10-second media. -/
def pw7 : PWorld :=
  { playlists := [{ id := "p", author := "a", name := "P", media := [1] }]
    items := [{ id := 1, mediaId := 1, artist := "X", title := "Y", startT := 0, endT := 10 }]
    medias := [{ id := 1, sourceType := "yt", sourceID := "x", duration := 10, artist := "MA", title := "MT" }]
    nextItemId := 2
    nextMediaId := 2
    resolve := fun _ _ => none }

/-- A patch moving the end of the item past its media's duration. -/
def patch7 : ItemPatch := { endT := some 20 }

/-- The item stored by applying `patch7` to item 1 of `pw7`. -/
def item7after : StoredItem :=
  { id := 1, mediaId := 1, artist := "X", title := "Y", startT := 0, endT := 20 }

/-- The single media of `pw7`. -/
def media7 : PMedia :=
  { id := 1, sourceType := "yt", sourceID := "x", duration := 10, artist := "MA", title := "MT" }

/-- Item props whose artist is absent and whose title is empty. -/
def propsR : ItemProps :=
  { sourceType := .vstr "yt", sourceID := .vstr "x", artist := none, title := some "",
    startT := some 5, endT := none }

/-- The world after adding `citems9` to playlist `p` of `pw9`. -/
def cW9 : PWorld := (addPlaylistItems pw9 "p" citems9 none).1

/-- The result of adding `citems9` to playlist `p` of `pw9`: two fresh items
(ids 2 and 3) spliced in at the head. -/
def cRes9 : AddResult :=
  { added := [{ id := 2, mediaId := 1, artist := "AA", title := "MT", startT := 5, endT := 30 },
              { id := 3, mediaId := 1, artist := "MA", title := "TT", startT := 0, endT := 30 }]
    afterID := none
    playlistSize := 3 }

/-- The item created from `propsR` in `pw9`: labels default from the media. -/
def cItemR : StoredItem :=
  { id := 2, mediaId := 1, artist := "MA", title := "MT", startT := 5, endT := 30 }

end Playlists

namespace Booth

/-- C1: in an advance without `remove`, the next DJ is the waitlist head, or
the current DJ again when the waitlist is empty; rotating pops the non-empty
waitlist's head and re-queues the previous DJ at the tail, while an empty
waitlist stays empty — a lone DJ keeps the booth without being re-queued.
(User ids are non-empty strings; the empty string is falsy in the source.) -/
theorem nextDJ_selection_rotation (room : RoomState) (prev : Option BHistoryEntry)
    (hwl : ∀ u ∈ room.waitlist, u ≠ "")
    (hdj : room.currentDJ ≠ some "") :
    (room.waitlist = [] → getNextUserId false room = room.currentDJ) ∧
    (∀ u rest, room.waitlist = u :: rest → getNextUserId false room = some u) ∧
    (room.waitlist = [] → (cycleWaitlist prev false room).1.waitlist = []) ∧
    (∀ u rest, room.waitlist = u :: rest →
      (cycleWaitlist prev false room).1.waitlist =
        rest ++ (match prev with | some p => [p.userId] | none => [])) := by
  refine ⟨?_, ?_, ?_, ?_⟩
  · intro h
    cases hc : room.currentDJ with
    | none => simp [getNextUserId, jsFalsy, h, hc]
    | some s =>
      have hs : ¬(s = "") := fun he => hdj (by rw [hc, he])
      simp [getNextUserId, jsFalsy, h, hc, hs]
  · intro u rest h
    have hu : ¬(u = "") := hwl u (by rw [h]; exact List.mem_cons_self u rest)
    simp [getNextUserId, jsFalsy, h, hu]
  · intro h
    simp [cycleWaitlist, h]
  · intro u rest h
    cases prev with
    | none => simp [cycleWaitlist, h]
    | some p => simp [cycleWaitlist, h]

/-- Witness for C1 at a concrete room: with waitlist `[u2]` and current DJ
`u1` playing `prevEntry`, the next DJ is `u2` and the rotation yields
`[u1]`; with the empty-waitlist room, the DJ `u1` is reused and the waitlist
stays empty. -/
theorem nextDJ_selection_rotation_witness :
    getNextUserId false roomBusy = some "u2" ∧
    (cycleWaitlist (some prevEntry) false roomBusy).1.waitlist = ["u1"] ∧
    getNextUserId false cwOK.room = some "u1" ∧
    (cycleWaitlist none false cwOK.room).1.waitlist = [] := by
  have h1 := nextDJ_selection_rotation roomBusy (some prevEntry) (by decide) (by decide)
  have h2 := nextDJ_selection_rotation cwOK.room none (by decide) (by decide)
  refine ⟨h1.2.1 "u2" [] rfl, ?_, ?_, h2.2.2.1 rfl⟩
  · have := h1.2.2.2 "u2" [] rfl
    simpa using this
  · have := h2.1 rfl
    simpa using this

/-- Unfolding of `advanceAux` at positive fuel when the lock step fails. -/
theorem advanceAux_lock_fail (fuel : Nat) (opts : AdvOpts) (reuseLock : Bool) (env : LockEnv)
    (w : World) (h : (if reuseLock then env.extendOk else env.acquireOk) = false) :
    advanceAux (fuel + 1) opts reuseLock env w =
      { world := w
        locks := [if reuseLock then LockReq.extendL 2000 else LockReq.acquireL 2000]
        ops := []
        pubs := []
        result := .error .advanceInProgress } := by
  simp [advanceAux, h]

/-- C2: `advance` first requests the lock — an extend of the passed lease, or
an acquire of `booth:advancing`, both with TTL 2000 ms — and when that
request fails it fails with the advance-in-progress error, leaving the world
untouched: no store reads or writes and no publishes are performed. -/
theorem advance_lock_failure (opts : AdvOpts) (reuseLock : Bool) (env : LockEnv) (w : World)
    (h : (if reuseLock then env.extendOk else env.acquireOk) = false) :
    advance opts reuseLock env w =
      { world := w
        locks := [if reuseLock then LockReq.extendL 2000 else LockReq.acquireL 2000]
        ops := []
        pubs := []
        result := .error .advanceInProgress } := by
  unfold advance
  rw [show w.room.waitlist.length + 2 = (w.room.waitlist.length + 1) + 1 from rfl]
  exact advanceAux_lock_fail _ _ _ _ _ h

/-- Witness for C2: against the contended lock oracle, advancing `cwOK`
fails with the advance-in-progress error after a single 2000 ms acquire
request, with no store operations, no publishes and an unchanged world. -/
theorem advance_lock_failure_witness :
    advance {} false envDown cwOK =
      { world := cwOK
        locks := [LockReq.acquireL 2000]
        ops := []
        pubs := []
        result := .error .advanceInProgress } :=
  advance_lock_failure {} false envDown cwOK (by decide)

/-- C5: `onStart` stays idle when `booth:historyID` is absent; when it names
a persisted entry, it compares `endTime = playedAt + (end - start) * 1000`
with the clock and arms one timer for the exact remainder when the end is in
the future, advancing immediately otherwise. -/
theorem onStart_recovery (w : World) :
    (w.room.historyID = none → onStart w = .idle) ∧
    (∀ hid e, w.room.historyID = some hid → w.history.find? (fun h => h.id == hid) = some e →
      onStart w =
        if e.playedAt + (e.mEnd - e.mStart) * 1000 > w.now
        then .armTimer (e.playedAt + (e.mEnd - e.mStart) * 1000 - w.now)
        else .advanceNow) := by
  constructor
  · intro h
    simp [onStart, getCurrentEntry, h]
  · intro hid e h1 h2
    simp [onStart, getCurrentEntry, h1, h2]

/-- Witness for C5, the spec's literal scenario: `playedAt = 100000`,
start 0, end 30; a process starting 10 s in arms a 20000 ms timer, one
starting at 40 s advances immediately. -/
theorem onStart_recovery_witness :
    onStart cwRec1 = .armTimer 20000 ∧ onStart cwRec2 = .advanceNow := by
  constructor
  · have h := (onStart_recovery cwRec1).2 7 recEntry rfl (by decide)
    rw [h]
    decide
  · have h := (onStart_recovery cwRec2).2 7 recEntry rfl (by decide)
    rw [h]
    decide

/-- The tail of an advance always holds the lease it was given. -/
theorem finishAdvance_locks (opts : AdvOpts) (req : LockReq) (readOps : List StoreOp)
    (previous : Option BHistoryEntry) (nextP : Option Pending) (w : World) :
    (finishAdvance opts req readOps previous nextP w).locks = [req] := by
  cases nextP <;> simp [finishAdvance]

/-- The tail of an advance succeeds, returning the persisted next entry. -/
theorem finishAdvance_result (opts : AdvOpts) (req : LockReq) (readOps : List StoreOp)
    (previous : Option BHistoryEntry) (nextP : Option Pending) (w : World) :
    (finishAdvance opts req readOps previous nextP w).result =
      .ok (nextP.map (fun p => (saveEntry (saveStats w previous) p).1)) := by
  cases nextP <;> simp [finishAdvance]

/-- The topics published by the tail of an advance. -/
theorem finishAdvance_pubs (opts : AdvOpts) (req : LockReq) (readOps : List StoreOp)
    (previous : Option BHistoryEntry) (nextP : Option Pending) (w : World) :
    (finishAdvance opts req readOps previous nextP w).pubs =
      if opts.publish == some false then []
      else publishTopics (nextP.map (fun p => (saveEntry (saveStats w previous) p).1)) := by
  cases nextP <;> cases h : opts.publish == some false <;> simp [finishAdvance, publishTopics, h]

/-- After the tail of an advance with a next entry, the room points at the
new entry and the vote sets are empty. -/
theorem finishAdvance_room_some (opts : AdvOpts) (req : LockReq) (readOps : List StoreOp)
    (previous : Option BHistoryEntry) (p : Pending) (w : World) :
    (finishAdvance opts req readOps previous (some p) w).world.room.historyID =
      some (saveEntry (saveStats w previous) p).1.id ∧
    (finishAdvance opts req readOps previous (some p) w).world.room.upvotes = [] ∧
    (finishAdvance opts req readOps previous (some p) w).world.room.downvotes = [] ∧
    (finishAdvance opts req readOps previous (some p) w).world.room.favorites = [] := by
  simp [finishAdvance, cyclePlaylistW, applyMulti, updateOps, applyWOp]

/-- Rotating the waitlist never lengthens it. -/
theorem cycleWaitlist_length_le (previous : Option BHistoryEntry) (remove : Bool)
    (room : RoomState) :
    (cycleWaitlist previous remove room).1.waitlist.length ≤ room.waitlist.length := by
  unfold cycleWaitlist
  cases h : room.waitlist with
  | nil => simp [h]
  | cons u rest =>
    cases previous with
    | none => simp [h]
    | some p =>
      by_cases hr : remove <;> simp [hr, h]

/-- Rotating a non-empty waitlist with `remove` set pops exactly one member. -/
theorem cycleWaitlist_length_remove_true (previous : Option BHistoryEntry) (room : RoomState)
    (h : room.waitlist ≠ []) :
    (cycleWaitlist previous true room).1.waitlist.length + 1 = room.waitlist.length := by
  unfold cycleWaitlist
  cases hw : room.waitlist with
  | nil => exact absurd hw h
  | cons u rest => cases previous <;> simp [hw]

/-- `getNextEntry` only fails with the empty-playlist or not-found errors. -/
theorem getNextEntry_error_cases (remove : Bool) (w : World) (e : Err)
    (h : (getNextEntry remove w).1 = .error e) : e = .emptyPlaylist ∨ e = .notFound := by
  unfold getNextEntry at h
  repeat' split at h
  all_goals simp_all

/-- An empty-playlist failure with `remove` set means the selected user came
from the waitlist head, so the waitlist was non-empty. -/
theorem getNextEntry_empty_nonnil (w : World)
    (h : (getNextEntry true w).1 = .error .emptyPlaylist) : w.room.waitlist ≠ [] := by
  intro hnil
  have hu : getNextUserId true w.room = none := by
    simp [getNextUserId, jsFalsy, hnil]
  unfold getNextEntry at h
  rw [hu] at h
  simp at h

/-- The retry after an empty-playlist failure strictly decreases the advance
measure: the waitlist rotation never lengthens the waitlist, it consumes one
member whenever `remove` was already set, and otherwise the retry sets
`remove`. -/
theorem advMeasure_retry_lt (opts : AdvOpts) (previous : Option BHistoryEntry) (w : World)
    (h : (getNextEntry opts.remove w).1 = .error .emptyPlaylist) :
    advMeasure true { w with room := (cycleWaitlist previous opts.remove w.room).1 } <
      advMeasure opts.remove w := by
  unfold advMeasure
  cases hr : opts.remove with
  | false =>
    have hle := cycleWaitlist_length_le previous false w.room
    simp only [if_true, Bool.false_eq_true, if_false]
    omega
  | true =>
    rw [hr] at h
    have hne := getNextEntry_empty_nonnil w h
    have heq := cycleWaitlist_length_remove_true previous w.room hne
    simp only [if_true]
    omega

/-- At positive fuel, the first lock request of `advanceAux` is an extend of
the passed lease, or an acquire, with TTL 2000 ms. -/
theorem advanceAux_locks_head (fuel : Nat) (opts : AdvOpts) (reuseLock : Bool) (env : LockEnv)
    (w : World) :
    (advanceAux (fuel + 1) opts reuseLock env w).locks.head? =
      some (if reuseLock then LockReq.extendL 2000 else LockReq.acquireL 2000) := by
  by_cases hlock : (if reuseLock then env.extendOk else env.acquireOk) = true
  · simp only [advanceAux, hlock, if_true]
    cases hge : (getNextEntry opts.remove w).1 with
    | error e => cases e <;> simp [hge]
    | ok np => simp [hge, finishAdvance_locks]
  · have hlock2 : (if reuseLock then env.extendOk else env.acquireOk) = false := by
      revert hlock
      cases (if reuseLock then env.extendOk else env.acquireOk) <;> simp
    rw [advanceAux_lock_fail fuel opts reuseLock env w hlock2]
    rfl

/-- Master properties of the fuelled advance recursion: it never surfaces the
empty-playlist error; the fuel is sufficient whenever it exceeds the
measure; the number of lock requests is at most the measure plus one; every
lock request after the first is an extend (TTL 2000 ms), and every request
of a lease-reusing call is an extend; a successful advance publishes
exactly the program-order topic list (unless publishing is suppressed); and
after a successful advance with a next entry the room points at that entry
with empty vote sets. -/
theorem advanceAux_props (fuel : Nat) :
    ∀ (opts : AdvOpts) (reuseLock : Bool) (env : LockEnv) (w : World),
      ((advanceAux fuel opts reuseLock env w).result ≠ .error .emptyPlaylist) ∧
      (advMeasure opts.remove w < fuel →
        (advanceAux fuel opts reuseLock env w).result ≠ .error .outOfFuel) ∧
      ((advanceAux fuel opts reuseLock env w).locks.length ≤ advMeasure opts.remove w + 1) ∧
      (∀ l ∈ (advanceAux fuel opts reuseLock env w).locks.drop 1, l = .extendL 2000) ∧
      (reuseLock = true → ∀ l ∈ (advanceAux fuel opts reuseLock env w).locks, l = .extendL 2000) ∧
      (∀ o, (advanceAux fuel opts reuseLock env w).result = .ok o →
        (advanceAux fuel opts reuseLock env w).pubs =
          if opts.publish == some false then [] else publishTopics o) ∧
      (∀ e, (advanceAux fuel opts reuseLock env w).result = .ok (some e) →
        (advanceAux fuel opts reuseLock env w).world.room.historyID = some e.id ∧
        (advanceAux fuel opts reuseLock env w).world.room.upvotes = [] ∧
        (advanceAux fuel opts reuseLock env w).world.room.downvotes = [] ∧
        (advanceAux fuel opts reuseLock env w).world.room.favorites = []) := by
  induction fuel with
  | zero =>
    intro opts reuseLock env w
    refine ⟨by simp [advanceAux], fun h => absurd h (Nat.not_lt_zero _), by simp [advanceAux],
      by simp [advanceAux], by intro h; simp [advanceAux], ?_, ?_⟩
    · intro o hc
      simp [advanceAux] at hc
    · intro e hc
      simp [advanceAux] at hc
  | succ fuel ih =>
    intro opts reuseLock env w
    by_cases hlock : (if reuseLock then env.extendOk else env.acquireOk) = true
    case neg =>
      have hlock2 : (if reuseLock then env.extendOk else env.acquireOk) = false := by
        revert hlock
        cases (if reuseLock then env.extendOk else env.acquireOk) <;> simp
      rw [advanceAux_lock_fail fuel opts reuseLock env w hlock2]
      refine ⟨by simp, by intro h; simp, by simp, by simp, by intro h; simp [h], ?_, ?_⟩
      · intro o hc
        simp at hc
      · intro e hc
        simp at hc
    case pos =>
      simp only [advanceAux, hlock, if_true]
      cases hge : (getNextEntry opts.remove w).1 with
      | error e =>
        cases e with
        | emptyPlaylist =>
          simp only [hge]
          obtain ⟨ih1, ih2, ih3, ih4, ih5, ih6, ih7⟩ :=
            ih { opts with remove := true } true env
              { w with room := (cycleWaitlist (getCurrentEntry w).1 opts.remove w.room).1 }
          rw [show ({ opts with remove := true } : AdvOpts).remove = true from rfl] at ih2 ih3
          rw [show ({ opts with remove := true } : AdvOpts).publish = opts.publish from rfl] at ih6
          have hdec := advMeasure_retry_lt opts (getCurrentEntry w).1 w hge
          refine ⟨by simpa using ih1, ?_, ?_, by simpa using ih5 rfl, ?_, ?_, ?_⟩
          · intro hm
            have hlt : advMeasure true
                { w with room := (cycleWaitlist (getCurrentEntry w).1 opts.remove w.room).1 } <
                fuel := by omega
            simpa using ih2 hlt
          · simp only [List.length_cons]
            omega
          · intro hr l hl
            simp only [List.mem_cons] at hl
            rcases hl with hl | hl
            · simp [hl, hr]
            · exact ih5 rfl l hl
          · intro o hc
            simpa using ih6 o (by simpa using hc)
          · intro e hc
            simpa using ih7 e (by simpa using hc)
        | notFound =>
          simp only [hge]
          refine ⟨by simp, by intro hm; simp, by simp, by simp, by intro h; simp [h], ?_, ?_⟩
          · intro o hc
            simp at hc
          · intro e hc
            simp at hc
        | advanceInProgress =>
          rcases getNextEntry_error_cases opts.remove w _ hge with h | h <;> simp at h
        | outOfFuel =>
          rcases getNextEntry_error_cases opts.remove w _ hge with h | h <;> simp at h
      | ok np =>
        simp only [hge]
        have hres := finishAdvance_result opts
          (if reuseLock then LockReq.extendL 2000 else LockReq.acquireL 2000)
          ((getCurrentEntry w).2 ++ (getNextEntry opts.remove w).2) (getCurrentEntry w).1 np w
        have hlocks := finishAdvance_locks opts
          (if reuseLock then LockReq.extendL 2000 else LockReq.acquireL 2000)
          ((getCurrentEntry w).2 ++ (getNextEntry opts.remove w).2) (getCurrentEntry w).1 np w
        have hpubs := finishAdvance_pubs opts
          (if reuseLock then LockReq.extendL 2000 else LockReq.acquireL 2000)
          ((getCurrentEntry w).2 ++ (getNextEntry opts.remove w).2) (getCurrentEntry w).1 np w
        refine ⟨by rw [hres]; simp, by intro hm; rw [hres]; simp, by rw [hlocks]; simp,
          by rw [hlocks]; simp, by intro h; rw [hlocks]; simp [h], ?_, ?_⟩
        · intro o hc
          rw [hres] at hc
          injection hc with hco
          rw [hpubs, hco]
        · intro e hc
          rw [hres] at hc
          cases np with
          | none => simp at hc
          | some p =>
            simp only [Option.map_some', Except.ok.injEq, Option.some.injEq] at hc
            have hce := hc
            have hroom := finishAdvance_room_some opts
              (if reuseLock then LockReq.extendL 2000 else LockReq.acquireL 2000)
              ((getCurrentEntry w).2 ++ (getNextEntry opts.remove w).2) (getCurrentEntry w).1 p w
            rw [← hce]
            exact hroom

/-- C3: the transition to a new entry is one atomic write sequence
(`multi`) whose commands delete the three vote sets and assign the new
`booth:historyID` and `booth:currentDJ`; consequently, applying that
sequence yields a state pointing at the new entry with empty vote sets, and
every successful advance leaves the room with `historyID` equal to the new
entry's id and all three vote sets empty. -/
theorem update_atomic_votes_cleared :
    (∀ (room : RoomState) (next : BHistoryEntry),
      (applyMulti (updateOps next) room).historyID = some next.id ∧
      (applyMulti (updateOps next) room).currentDJ = some next.userId ∧
      (applyMulti (updateOps next) room).upvotes = [] ∧
      (applyMulti (updateOps next) room).downvotes = [] ∧
      (applyMulti (updateOps next) room).favorites = []) ∧
    (∀ (opts : AdvOpts) (reuseLock : Bool) (env : LockEnv) (w : World) (e : BHistoryEntry),
      (advance opts reuseLock env w).result = .ok (some e) →
      (advance opts reuseLock env w).world.room.historyID = some e.id ∧
      (advance opts reuseLock env w).world.room.upvotes = [] ∧
      (advance opts reuseLock env w).world.room.downvotes = [] ∧
      (advance opts reuseLock env w).world.room.favorites = []) := by
  constructor
  · intro room next
    simp [applyMulti, updateOps, applyWOp]
  · intro opts reuseLock env w e h
    exact (advanceAux_props (w.room.waitlist.length + 2) opts reuseLock env w).2.2.2.2.2.2 e h

/-- Witness for C3: advancing the lone-DJ room `cwOK` succeeds with entry
`cwEntry`, and the resulting room points at it with all vote sets empty. -/
theorem update_atomic_votes_cleared_witness :
    (advance {} false envOK cwOK).world.room.historyID = some cwEntry.id ∧
    (advance {} false envOK cwOK).world.room.upvotes = [] ∧
    (advance {} false envOK cwOK).world.room.downvotes = [] ∧
    (advance {} false envOK cwOK).world.room.favorites = [] :=
  update_atomic_votes_cleared.2 {} false envOK cwOK cwEntry (by decide)

/-- C6: when publishing is not suppressed, an advance that produces a next
entry publishes exactly `advance:complete`, `playlist:cycle`, `user:play`,
`waitlist:update` in that order, and an advance to idle publishes
`advance:complete` then `waitlist:update` — so `advance:complete` is always
strictly first. -/
theorem advance_publish_order (opts : AdvOpts) (reuseLock : Bool) (env : LockEnv) (w : World)
    (hp : opts.publish ≠ some false) :
    (∀ e, (advance opts reuseLock env w).result = .ok (some e) →
      (advance opts reuseLock env w).pubs =
        ["advance:complete", "playlist:cycle", "user:play", "waitlist:update"]) ∧
    ((advance opts reuseLock env w).result = .ok none →
      (advance opts reuseLock env w).pubs = ["advance:complete", "waitlist:update"]) := by
  have h6 := (advanceAux_props (w.room.waitlist.length + 2) opts reuseLock env w).2.2.2.2.2.1
  have hp2 : (opts.publish == some false) = false := by
    cases hpv : opts.publish with
    | none => rfl
    | some b =>
      cases b with
      | false => exact absurd hpv hp
      | true => rfl
  constructor
  · intro e h
    unfold advance at h ⊢
    rw [h6 (some e) h, hp2]
    rfl
  · intro h
    unfold advance at h ⊢
    rw [h6 none h, hp2]
    rfl

/-- Witness for C6: advancing the lone-DJ room `cwOK` publishes the four
topics in program order. -/
theorem advance_publish_order_witness :
    (advance {} false envOK cwOK).pubs =
      ["advance:complete", "playlist:cycle", "user:play", "waitlist:update"] :=
  (advance_publish_order {} false envOK cwOK (by decide)).1 cwEntry (by decide)

/-- C4 counterexample: the claim bounds the retries by the waitlist length,
but the first skip re-queues the previous DJ instead of consuming a member.
In `cw4` the waitlist is `[u2]` (length 1), `u1` is playing, and both
active playlists are empty: the advance needs two further steps (the lock
is extended twice after the initial acquire) before reaching the Idle
outcome, exceeding the claimed bound of one. -/
theorem advance_retry_steps_cex :
    cw4.room.waitlist.length = 1 ∧
    (advance {} false envOK cw4).locks =
      [LockReq.acquireL 2000, LockReq.extendL 2000, LockReq.extendL 2000] ∧
    (advance {} false envOK cw4).result = .ok none := by
  decide

/-- C4 (amended): an empty active playlist is handled internally — the
empty-playlist error never surfaces and the fuel bound is never hit; every
retry extends the same lease by 2000 ms (only the first request of a
lease-less call is an acquire); and the advance reaches its outcome after at
most waitlist-length + 1 further steps (at most waitlist-length + 2 lock
requests in total), the one extra step because the first skip re-queues the
previous DJ rather than consuming a waitlist member. -/
theorem advance_empty_playlist_skip (opts : AdvOpts) (reuseLock : Bool) (env : LockEnv)
    (w : World) :
    (advance opts reuseLock env w).result ≠ .error .emptyPlaylist ∧
    (advance opts reuseLock env w).result ≠ .error .outOfFuel ∧
    (advance opts reuseLock env w).locks.length ≤ w.room.waitlist.length + 2 ∧
    (∀ l ∈ (advance opts reuseLock env w).locks.drop 1, l = .extendL 2000) ∧
    (reuseLock = false →
      (advance opts reuseLock env w).locks.head? = some (.acquireL 2000)) := by
  unfold advance
  obtain ⟨h1, h2, h3, h4, h5, h6, h7⟩ :=
    advanceAux_props (w.room.waitlist.length + 2) opts reuseLock env w
  have hμ : advMeasure opts.remove w ≤ w.room.waitlist.length + 1 := by
    unfold advMeasure
    cases opts.remove <;> simp
  refine ⟨h1, h2 (by omega), by omega, h4, ?_⟩
  intro hr
  subst hr
  have hh := advanceAux_locks_head (w.room.waitlist.length + 1) opts false env w
  simpa using hh

/-- Witness for C4 (amended) at the concrete double-skip world `cw4`. -/
theorem advance_empty_playlist_skip_witness :
    (advance {} false envOK cw4).result ≠ .error .emptyPlaylist ∧
    (advance {} false envOK cw4).locks.head? = some (.acquireL 2000) := by
  have h := advance_empty_playlist_skip {} false envOK cw4
  exact ⟨h.1, h.2.2.2.2 rfl⟩

end Booth

namespace Playlists

/-- The clamped trim of a new item always satisfies
`0 ≤ start ≤ end ≤ duration` (for a non-negative media duration). -/
theorem getStartEnd_bounds (props : ItemProps) (media : PMedia) (hdur : 0 ≤ media.duration) :
    0 ≤ (getStartEnd props media).1 ∧
    (getStartEnd props media).1 ≤ (getStartEnd props media).2 ∧
    (getStartEnd props media).2 ≤ media.duration := by
  unfold getStartEnd
  rcases props.startT with _ | s <;> rcases props.endT with _ | e0 <;>
    simp only [Bool.or_eq_true, beq_iff_eq, decide_eq_true_eq] <;>
    (try split_ifs) <;>
    first
      | omega
      | (push_neg at *; omega)

/-- The start of a constructed playlist item is the clamped start. -/
theorem toPlaylistItem_startT (props : ItemProps) (media : PMedia) :
    (toPlaylistItem props media).startT = (getStartEnd props media).1 := rfl

/-- The end of a constructed playlist item is the clamped end. -/
theorem toPlaylistItem_endT (props : ItemProps) (media : PMedia) :
    (toPlaylistItem props media).endT = (getStartEnd props media).2 := rfl

/-- C7 counterexample: the claim says `updatePlaylistItem` re-clamps the
patched values so that `end ≤ media.duration` holds after every update; but
the source assigns the patch verbatim.  Patching item 1 of `pw7` (media
duration 10) with `end := 20` persists `end = 20 > 10`. -/
theorem updatePlaylistItem_no_reclamp_cex :
    (updatePlaylistItem pw7 1 patch7).2 = .ok item7after ∧
    pw7.medias.find? (fun m => m.id == item7after.mediaId) = some media7 ∧
    media7.duration < item7after.endT := by
  decide

/-- C7 (amended): creation does enforce the invariant — for a non-negative
media duration, `toPlaylistItem` yields `0 ≤ start ≤ end ≤ duration` — but
`updatePlaylistItem` does not re-clamp: a successful update stores exactly
`Object.assign(item, patch)`, subject only to the schema's `min: 0` checks,
so `start ≤ end ≤ duration` can be violated by an update. -/
theorem clamp_on_create_verbatim_on_update :
    (∀ (props : ItemProps) (media : PMedia), 0 ≤ media.duration →
      0 ≤ (toPlaylistItem props media).startT ∧
      (toPlaylistItem props media).startT ≤ (toPlaylistItem props media).endT ∧
      (toPlaylistItem props media).endT ≤ media.duration) ∧
    (∀ (w : PWorld) (itemId : Nat) (patch : ItemPatch) (it1 : StoredItem),
      (updatePlaylistItem w itemId patch).2 = .ok it1 →
      ∃ it, w.items.find? (fun j => j.id == itemId) = some it ∧
        it1 = applyPatch it patch ∧ 0 ≤ it1.startT ∧ 0 ≤ it1.endT) := by
  constructor
  · intro props media hdur
    rw [toPlaylistItem_startT, toPlaylistItem_endT]
    exact getStartEnd_bounds props media hdur
  · intro w itemId patch it1 h
    unfold updatePlaylistItem at h
    cases hf : w.items.find? (fun j => j.id == itemId) with
    | none => rw [hf] at h; simp at h
    | some it =>
      rw [hf] at h
      by_cases hv : passesStoredSchema (applyPatch it patch) = true
      · simp only [hv, eq_self_iff_true, if_true, Except.ok.injEq] at h
        have hit : applyPatch it patch = it1 := h
        have hv2 : passesStoredSchema it1 = true := by rw [← hit]; exact hv
        unfold passesStoredSchema at hv2
        simp only [Bool.and_eq_true, Bool.not_eq_true', beq_eq_false_iff_ne,
          decide_eq_true_eq] at hv2
        exact ⟨it, rfl, hit.symm, hv2.1.2, hv2.2⟩
      · simp [hv] at h

/-- Witness for C7 (amended): the clamp bounds at `propsR` over `media7`,
and the verbatim update of item 1 of `pw7` by `patch7`. -/
theorem clamp_on_create_verbatim_on_update_witness :
    (0 ≤ (toPlaylistItem propsR media7).startT ∧
      (toPlaylistItem propsR media7).startT ≤ (toPlaylistItem propsR media7).endT ∧
      (toPlaylistItem propsR media7).endT ≤ media7.duration) ∧
    (∃ it, pw7.items.find? (fun j => j.id == 1) = some it ∧
      item7after = applyPatch it patch7 ∧ 0 ≤ item7after.startT ∧ 0 ≤ item7after.endT) :=
  ⟨clamp_on_create_verbatim_on_update.1 propsR media7 (by decide),
   clamp_on_create_verbatim_on_update.2 pw7 1 patch7 item7after (by decide)⟩

/-- When no item crashes the validator and some item fails it, the
`every` check returns false. -/
theorem everyValid_false_of_mem (items : List ItemInput)
    (hwf : ∀ i ∈ items, isValidPlaylistItem i ≠ .error .typeError)
    (hfail : ∃ i ∈ items, isValidPlaylistItem i = .ok false) :
    everyValid items = .ok false := by
  induction items with
  | nil =>
    rcases hfail with ⟨i, hi, _⟩
    cases hi
  | cons a rest ih =>
    rcases hfail with ⟨i, hi, hv⟩
    cases hva : isValidPlaylistItem a with
    | error e =>
      cases e
      exact absurd hva (hwf a (List.mem_cons_self _ _))
    | ok b =>
      cases b with
      | false => simp [everyValid, hva]
      | true =>
        simp only [everyValid, hva]
        apply ih
        · intro j hj
          exact hwf j (List.mem_cons_of_mem _ hj)
        · rcases List.mem_cons.mp hi with rfl | hi2
          · rw [hva] at hv
            simp at hv
          · exact ⟨i, hi2, hv⟩

/-- C8: `addPlaylistItems` validates every input item (`sourceType` a
string, `sourceID` a string or number); when some item fails the check, the
whole operation fails with the bad-request error and the world — in
particular the playlist — is returned unchanged. -/
theorem addPlaylistItems_invalid_rejected (w : PWorld) (plid : String) (items : List ItemInput)
    (after : Option String) (pl : PPlaylist)
    (hpl : getPlaylist w plid = .ok pl)
    (hwf : ∀ i ∈ items, isValidPlaylistItem i ≠ .error .typeError)
    (hfail : ∃ i ∈ items, isValidPlaylistItem i = .ok false) :
    addPlaylistItems w plid items after = (w, .error .badRequest) := by
  have hev := everyValid_false_of_mem items hwf hfail
  unfold addPlaylistItems
  rw [hpl]
  unfold createPlaylistItems
  rw [hev]

/-- Witness for C8: the batch `citemsBad` (its second member is a bare
number) is rejected with the bad-request error, leaving `pw9` unchanged. -/
theorem addPlaylistItems_invalid_rejected_witness :
    addPlaylistItems pw9 "p" citemsBad none = (pw9, .error .badRequest) :=
  addPlaylistItems_invalid_rejected pw9 "p" citemsBad none
    { id := "p", author := "a", name := "P", media := [1] }
    (by decide) (by decide) (by decide)

/-- `Media.create` over resolver descriptors touches only the media table
(and its counter); created and pre-existing medias are in the final table. -/
theorem createMedias_spec (ps : List PMediaProps) : ∀ w : PWorld,
    (createMedias w ps).2.playlists = w.playlists ∧
    (createMedias w ps).2.items = w.items ∧
    (createMedias w ps).2.nextItemId = w.nextItemId ∧
    (∀ m ∈ w.medias, m ∈ (createMedias w ps).2.medias) ∧
    (∀ m ∈ (createMedias w ps).1, m ∈ (createMedias w ps).2.medias) := by
  induction ps with
  | nil =>
    intro w
    exact ⟨rfl, rfl, rfl, fun m hm => hm, fun m hm => absurd hm (List.not_mem_nil m)⟩
  | cons p rest ih =>
    intro w
    obtain ⟨ih1, ih2, ih3, ih4, ih5⟩ := ih (addMedia w p)
    refine ⟨ih1, ih2, ih3, ?_, ?_⟩
    · intro m hm
      exact ih4 m (List.mem_append_left _ hm)
    · show ∀ m ∈ mediaOf w p :: (createMedias (addMedia w p) rest).1,
        m ∈ (createMedias (addMedia w p) rest).2.medias
      intro m hm
      rcases List.mem_cons.mp hm with rfl | hm2
      · exact ih4 _ (List.mem_append_right _ (List.mem_singleton.mpr rfl))
      · exact ih5 m hm2

/-- One group iteration touches only the media table; pre-existing medias
survive. -/
theorem processGroup_spec (w : PWorld) (st : String) (sourceItems : List ItemProps) :
    (processGroup w st sourceItems).1.playlists = w.playlists ∧
    (processGroup w st sourceItems).1.items = w.items ∧
    (processGroup w st sourceItems).1.nextItemId = w.nextItemId ∧
    (∀ m ∈ w.medias, m ∈ (processGroup w st sourceItems).1.medias) := by
  have h := createMedias_spec (groupResolved w st sourceItems) w
  exact ⟨h.1, h.2.1, h.2.2.1, h.2.2.2.1⟩

/-- Every new item field built by pairing comes from an input of the list
and a media of the paired list whose source id matches the input's. -/
theorem matchMedias_mem (allMedias : List PMedia) (ps : List ItemProps) :
    ∀ out, matchMedias allMedias ps = .ok out →
      ∀ x ∈ out, ∃ p ∈ ps, ∃ m ∈ allMedias,
        m.sourceID = jsToString p.sourceID ∧ x = toPlaylistItem p m := by
  induction ps with
  | nil =>
    intro out h x hx
    simp only [matchMedias, Except.ok.injEq] at h
    subst h
    simp at hx
  | cons p rest ih =>
    intro out h x hx
    unfold matchMedias at h
    cases hf : allMedias.find? (fun m => m.sourceID == jsToString p.sourceID) with
    | none => rw [hf] at h; simp at h
    | some m =>
      rw [hf] at h
      cases hr : matchMedias allMedias rest with
      | error e => rw [hr] at h; simp at h
      | ok tl =>
        rw [hr] at h
        simp only [Except.ok.injEq] at h
        subst h
        rcases List.mem_cons.mp hx with rfl | hx2
        · refine ⟨p, List.mem_cons_self _ _, m, List.mem_of_find?_eq_some hf, ?_, rfl⟩
          have hb := List.find?_some hf
          exact eq_of_beq hb
        · rcases ih tl hr x hx2 with ⟨p2, hp2, m2, hm2, hsid, hxe⟩
          exact ⟨p2, List.mem_cons_of_mem _ hp2, m2, hm2, hsid, hxe⟩

/-- Every new item field built by one group iteration comes from one of the
group's inputs and a media (now in the media table) whose source id matches
that input's. -/
theorem processGroup_out (w : PWorld) (st : String) (sourceItems : List ItemProps)
    (out : List NewItemProps) (h : (processGroup w st sourceItems).2 = .ok out) :
    ∀ x ∈ out, ∃ p ∈ sourceItems, ∃ m ∈ (processGroup w st sourceItems).1.medias,
      m.sourceID = jsToString p.sourceID ∧ x = toPlaylistItem p m := by
  have hmm := matchMedias_mem
    (groupKnown w st sourceItems ++ (createMedias w (groupResolved w st sourceItems)).1)
    sourceItems out h
  intro x hx
  rcases hmm x hx with ⟨p, hp, m, hm, hsid, hxe⟩
  refine ⟨p, hp, m, ?_, hsid, hxe⟩
  have hspec := createMedias_spec (groupResolved w st sourceItems) w
  rcases List.mem_append.mp hm with hk | hc
  · exact hspec.2.2.2.1 m (List.mem_of_mem_filter hk)
  · exact hspec.2.2.2.2 m hc

/-- The group loop touches only the media table; pre-existing medias
survive. -/
theorem processGroups_spec (props : List ItemProps) (keys : List String) : ∀ w : PWorld,
    (processGroups w props keys).1.playlists = w.playlists ∧
    (processGroups w props keys).1.items = w.items ∧
    (processGroups w props keys).1.nextItemId = w.nextItemId ∧
    (∀ m ∈ w.medias, m ∈ (processGroups w props keys).1.medias) := by
  induction keys with
  | nil => intro w; exact ⟨rfl, rfl, rfl, fun m hm => hm⟩
  | cons st rest ih =>
    intro w
    have hg := processGroup_spec w st (props.filter (fun p => sourceTypeKey p == st))
    unfold processGroups
    cases hpg : (processGroup w st (props.filter (fun p => sourceTypeKey p == st))).2 with
    | error e =>
      simp only [hpg]
      exact ⟨hg.1, hg.2.1, hg.2.2.1, hg.2.2.2⟩
    | ok is1 =>
      simp only [hpg]
      obtain ⟨ih1, ih2, ih3, ih4⟩ :=
        ih (processGroup w st (props.filter (fun p => sourceTypeKey p == st))).1
      exact ⟨ih1.trans hg.1, ih2.trans hg.2.1, ih3.trans hg.2.2.1,
        fun m hm => ih4 m (hg.2.2.2 m hm)⟩

/-- Every new item field built by the group loop comes from one of the
filtered inputs and a media (in the final media table) whose source id
matches that input's. -/
theorem processGroups_out (props : List ItemProps) (keys : List String) :
    ∀ (w : PWorld) (out : List NewItemProps),
      (processGroups w props keys).2 = .ok out →
      ∀ x ∈ out, ∃ p ∈ props, ∃ m ∈ (processGroups w props keys).1.medias,
        m.sourceID = jsToString p.sourceID ∧ x = toPlaylistItem p m := by
  induction keys with
  | nil =>
    intro w out h x hx
    simp only [processGroups, Except.ok.injEq] at h
    subst h
    simp at hx
  | cons st rest ih =>
    intro w out h x hx
    unfold processGroups at h ⊢
    cases hpg : (processGroup w st (props.filter (fun p => sourceTypeKey p == st))).2 with
    | error e => rw [hpg] at h; simp at h
    | ok is1 =>
      rw [hpg] at h
      simp only [hpg]
      cases hr : (processGroups
          (processGroup w st (props.filter (fun p => sourceTypeKey p == st))).1 props rest).2 with
      | error e => rw [hr] at h; simp at h
      | ok tl =>
        rw [hr] at h
        simp only [Except.ok.injEq] at h
        subst h
        rcases List.mem_append.mp hx with hx1 | hx2
        · rcases processGroup_out w st _ is1 hpg x hx1 with ⟨p, hp, m, hm, hsid, hxe⟩
          refine ⟨p, List.mem_of_mem_filter hp, m, ?_, hsid, hxe⟩
          exact (processGroups_spec props rest _).2.2.2 m hm
        · rcases ih _ tl hr x hx2 with ⟨p, hp, m, hm, hsid, hxe⟩
          exact ⟨p, hp, m, hm, hsid, hxe⟩

/-- Bulk item creation keeps playlists and medias; created items carry ids
at or above the counter and fields copied from the given new item fields. -/
theorem materializeItems_spec (ps : List NewItemProps) : ∀ w : PWorld,
    (materializeItems w ps).1.playlists = w.playlists ∧
    (materializeItems w ps).1.medias = w.medias ∧
    (∀ out, (materializeItems w ps).2 = .ok out →
      (∀ it ∈ out, w.nextItemId ≤ it.id) ∧
      (∀ it ∈ out, ∃ p ∈ ps, it.artist = p.artist ∧ it.title = p.title)) := by
  induction ps with
  | nil =>
    intro w
    refine ⟨rfl, rfl, ?_⟩
    intro out h
    simp only [materializeItems, Except.ok.injEq] at h
    subst h
    exact ⟨by simp, by simp⟩
  | cons p rest ih =>
    intro w
    obtain ⟨ih1, ih2, ih3⟩ := ih (addItem w p)
    by_cases hp : passesItemSchema p = true
    · refine ⟨?_, ?_, ?_⟩
      · show ((materializeItems w (p :: rest)).1.playlists = w.playlists)
        unfold materializeItems
        rw [if_pos hp]
        exact ih1
      · show ((materializeItems w (p :: rest)).1.medias = w.medias)
        unfold materializeItems
        rw [if_pos hp]
        exact ih2
      · intro out h
        unfold materializeItems at h
        rw [if_pos hp] at h
        cases hr : (materializeItems (addItem w p) rest).2 with
        | error e => rw [hr] at h; simp at h
        | ok tl =>
          rw [hr] at h
          simp only [Except.ok.injEq] at h
          subst h
          obtain ⟨hid, hfld⟩ := ih3 tl hr
          constructor
          · intro it hit
            rcases List.mem_cons.mp hit with rfl | hit2
            · exact Nat.le_refl _
            · have := hid it hit2
              have haddid : (addItem w p).nextItemId = w.nextItemId + 1 := rfl
              omega
          · intro it hit
            rcases List.mem_cons.mp hit with rfl | hit2
            · exact ⟨p, List.mem_cons_self _ _, rfl, rfl⟩
            · rcases hfld it hit2 with ⟨p2, hp2, ha, ht⟩
              exact ⟨p2, List.mem_cons_of_mem _ hp2, ha, ht⟩
    · refine ⟨?_, ?_, ?_⟩
      · show ((materializeItems w (p :: rest)).1.playlists = w.playlists)
        unfold materializeItems
        rw [if_neg hp]
      · show ((materializeItems w (p :: rest)).1.medias = w.medias)
        unfold materializeItems
        rw [if_neg hp]
      · intro out h
        unfold materializeItems at h
        rw [if_neg hp] at h
        simp at h

/-- `createPlaylistItems` keeps playlists; on success every created item has
a fresh id (at or above the item counter) and carries artist/title from one
of the input objects' pairing. -/
theorem createPlaylistItems_spec (w : PWorld) (items : List ItemInput) :
    (createPlaylistItems w items).1.playlists = w.playlists ∧
    (∀ out, (createPlaylistItems w items).2 = .ok out →
      ∀ it ∈ out, w.nextItemId ≤ it.id) := by
  unfold createPlaylistItems
  cases hev : everyValid items with
  | error e => exact ⟨rfl, by intro out h; simp at h⟩
  | ok b =>
    cases b with
    | false => exact ⟨rfl, by intro out h; simp at h⟩
    | true =>
      have hpg := processGroups_spec (inputProps items) (inputKeys items) w
      cases hnp : (processGroups w (inputProps items) (inputKeys items)).2 with
      | error e =>
        simp only [hnp]
        exact ⟨hpg.1, by intro out h; simp at h⟩
      | ok newProps =>
        simp only [hnp]
        have hmi := materializeItems_spec newProps
          (processGroups w (inputProps items) (inputKeys items)).1
        refine ⟨hmi.1.trans hpg.1, ?_⟩
        intro out h it hit
        have := (hmi.2.2 out h).1 it hit
        have hcnt := hpg.2.2.1
        omega

/-- Replacing a playlist's media list rewrites exactly the looked-up
playlist. -/
theorem find?_map_set (plid : String) (m : List Nat) (l : List PPlaylist) :
    (l.map (fun p => if p.id == plid then { p with media := m } else p)).find?
        (fun p => p.id == plid) =
      (l.find? (fun p => p.id == plid)).map (fun p => { p with media := m }) := by
  induction l with
  | nil => rfl
  | cons p0 rest ih =>
    simp only [List.map_cons]
    by_cases hb : (p0.id == plid) = true
    · rw [if_pos hb]
      rw [List.find?_cons, List.find?_cons]
      rw [hb]
      rfl
    · rw [if_neg hb]
      rw [List.find?_cons, List.find?_cons]
      have hbf : (p0.id == plid) = false := by
        revert hb
        cases (p0.id == plid) <;> simp
      rw [hbf]
      exact ih

/-- `getPlaylist` after `setPlaylistMedia` of the same playlist. -/
theorem getPlaylist_set (w : PWorld) (plid : String) (m : List Nat) (pl : PPlaylist)
    (h : getPlaylist w plid = .ok pl) :
    getPlaylist (setPlaylistMedia w plid m) plid = .ok { pl with media := m } := by
  unfold getPlaylist at h ⊢
  unfold setPlaylistMedia
  cases hf : w.playlists.find? (fun p => p.id == plid) with
  | none => rw [hf] at h; simp at h
  | some q =>
    rw [hf] at h
    simp only [Except.ok.injEq] at h
    subst h
    rw [find?_map_set, hf]
    rfl

/-- `playlistMedia` of a found playlist is its media list. -/
theorem playlistMedia_of_get (w : PWorld) (plid : String) (pl : PPlaylist)
    (h : getPlaylist w plid = .ok pl) : playlistMedia w plid = pl.media := by
  unfold getPlaylist at h
  unfold playlistMedia
  cases hf : w.playlists.find? (fun p => p.id == plid) with
  | none => rw [hf] at h; simp at h
  | some q =>
    rw [hf] at h
    simp only [Except.ok.injEq] at h
    subst h
    rfl

/-- Removing items never touches a playlist's membership in the world's
playlist table beyond its own media list; `playlistMedia` ignores the item
table. -/
theorem playlistMedia_items_irrel (w : PWorld) (its : List StoredItem) (plid : String) :
    playlistMedia { w with items := its } plid = playlistMedia w plid := rfl

/-- C9: adding items to a playlist and then removing exactly the added ids
restores the playlist's ordered media list.  The freshness hypothesis says
no existing media id stringifies to one of the added ids' strings — true in
the repository since created ids are fresh. -/
theorem add_remove_roundtrip (w : PWorld) (plid : String) (items : List ItemInput)
    (after : Option String) (res : AddResult) (w1 : PWorld)
    (hadd : addPlaylistItems w plid items after = (w1, .ok res))
    (hfresh : ∀ i ∈ playlistMedia w plid,
      toString i ∉ res.added.map (fun it => toString it.id)) :
    (removePlaylistItems w1 plid (res.added.map (fun it => toString it.id))).2 = .ok () ∧
    playlistMedia (removePlaylistItems w1 plid (res.added.map (fun it => toString it.id))).1 plid
      = playlistMedia w plid := by
  unfold addPlaylistItems at hadd
  cases hpl : getPlaylist w plid with
  | error e => rw [hpl] at hadd; simp at hadd
  | ok playlist =>
    rw [hpl] at hadd
    cases hcr : (createPlaylistItems w items).2 with
    | error e => rw [hcr] at hadd; simp at hadd
    | ok newItems =>
      rw [hcr] at hadd
      simp only [Prod.mk.injEq, Except.ok.injEq] at hadd
      obtain ⟨hw1, hres⟩ := hadd
      have hadded : res.added = newItems := by rw [← hres]
      subst hw1
      rw [hadded] at hfresh ⊢
      have hfresh2 : ∀ i ∈ playlist.media,
          toString i ∉ newItems.map (fun it => toString it.id) := by
        rw [playlistMedia_of_get w plid playlist hpl] at hfresh
        exact hfresh
      have hpls := (createPlaylistItems_spec w items).1
      have hplc : getPlaylist (createPlaylistItems w items).1 plid = .ok playlist := by
        unfold getPlaylist at hpl ⊢
        rw [hpls]
        exact hpl
      have hset := getPlaylist_set (createPlaylistItems w items).1 plid
        (insertAt playlist.media (afterIndex playlist.media after)
          (newItems.map (fun it => it.id))) playlist hplc
      have hkey : (insertAt playlist.media (afterIndex playlist.media after)
            (newItems.map (fun it => it.id))).filter
          (fun i => !((newItems.map (fun it => toString it.id)).contains (toString i))) =
          playlist.media := by
        unfold insertAt
        rw [List.filter_append, List.filter_append]
        have h1 : (playlist.media.take (afterIndex playlist.media after)).filter
            (fun i => !((newItems.map (fun it => toString it.id)).contains (toString i))) =
            playlist.media.take (afterIndex playlist.media after) := by
          rw [List.filter_eq_self]
          intro a ha
          have : a ∈ playlist.media := List.take_subset _ _ ha
          simp [hfresh2 a this]
        have h3 : (playlist.media.drop (afterIndex playlist.media after)).filter
            (fun i => !((newItems.map (fun it => toString it.id)).contains (toString i))) =
            playlist.media.drop (afterIndex playlist.media after) := by
          rw [List.filter_eq_self]
          intro a ha
          have : a ∈ playlist.media := List.drop_subset _ _ ha
          simp [hfresh2 a this]
        have h2 : ((newItems.map (fun it => it.id)).filter
            (fun i => !((newItems.map (fun it => toString it.id)).contains (toString i)))) =
            [] := by
          rw [List.filter_eq_nil_iff]
          intro a ha
          rcases List.mem_map.mp ha with ⟨it, hitm, hai⟩
          have : toString a ∈ newItems.map (fun it => toString it.id) := by
            rw [← hai]
            exact List.mem_map_of_mem _ hitm
          simp [this]
        rw [h1, h2, h3]
        simp [List.take_append_drop]
      unfold removePlaylistItems
      rw [hset]
      refine ⟨rfl, ?_⟩
      have hset2 := getPlaylist_set
        (setPlaylistMedia (createPlaylistItems w items).1 plid
          (insertAt playlist.media (afterIndex playlist.media after)
            (newItems.map (fun it : StoredItem => it.id))))
        plid
        (({ playlist with
            media := insertAt playlist.media (afterIndex playlist.media after)
              (newItems.map (fun it : StoredItem => it.id)) }).media.filter
          (fun i => !((newItems.map (fun it : StoredItem => toString it.id)).contains
            (toString i))))
        ({ playlist with
            media := insertAt playlist.media (afterIndex playlist.media after)
              (newItems.map (fun it : StoredItem => it.id)) })
        hset
      rw [playlistMedia_items_irrel]
      rw [playlistMedia_of_get _ plid _ hset2]
      rw [playlistMedia_of_get w plid playlist hpl]
      exact hkey

/-- An object payload of the inputs comes from an object input. -/
theorem inputProps_mem (items : List ItemInput) (p : ItemProps) (hp : p ∈ inputProps items) :
    ItemInput.obj p ∈ items := by
  unfold inputProps at hp
  rcases List.mem_filterMap.mp hp with ⟨i, hi, he⟩
  cases i with
  | obj q =>
    simp only [itemObj, Option.some.injEq] at he
    subst he
    exact hi
  | nullItem => simp [itemObj] at he
  | nonObject v => simp [itemObj] at he

/-- C10: a constructed playlist item's artist (resp. title) is the media's
when the input's is absent or empty, and the input's otherwise; `createItem`
stores exactly these defaults against the resolved media, and every item
created by `createPlaylistItems` carries them against a media of the final
media table whose source id matches its input's. -/
theorem item_defaults_artist_title :
    (∀ (props : ItemProps) (media : PMedia),
      ((props.artist = none ∨ props.artist = some "") →
        (toPlaylistItem props media).artist = media.artist) ∧
      (∀ a, props.artist = some a → a ≠ "" → (toPlaylistItem props media).artist = a) ∧
      ((props.title = none ∨ props.title = some "") →
        (toPlaylistItem props media).title = media.title) ∧
      (∀ t, props.title = some t → t ≠ "" → (toPlaylistItem props media).title = t)) ∧
    (∀ (w : PWorld) (props : ItemProps) (it : StoredItem),
      (createItem w props).2 = .ok it →
      ∃ m, (getMedia w (jsToString props.sourceType) (jsToString props.sourceID)).2 = .ok m ∧
        it.artist = strOr props.artist m.artist ∧ it.title = strOr props.title m.title) ∧
    (∀ (w : PWorld) (items : List ItemInput) (out : List StoredItem),
      (createPlaylistItems w items).2 = .ok out →
      ∀ it ∈ out, ∃ props m, ItemInput.obj props ∈ items ∧
        m ∈ (createPlaylistItems w items).1.medias ∧
        m.sourceID = jsToString props.sourceID ∧
        it.artist = strOr props.artist m.artist ∧ it.title = strOr props.title m.title) := by
  refine ⟨?_, ?_, ?_⟩
  · intro props media
    refine ⟨?_, ?_, ?_, ?_⟩
    · rintro (h | h) <;> simp [toPlaylistItem, strOr, h]
    · intro a ha hne
      simp [toPlaylistItem, strOr, ha, hne]
    · rintro (h | h) <;> simp [toPlaylistItem, strOr, h]
    · intro t ht hne
      simp [toPlaylistItem, strOr, ht, hne]
  · intro w props it h
    unfold createItem at h
    cases hg : (getMedia w (jsToString props.sourceType) (jsToString props.sourceID)).2 with
    | error e => rw [hg] at h; simp at h
    | ok media =>
      rw [hg] at h
      dsimp only at h
      by_cases hs : passesItemSchema (toPlaylistItem props media) = true
      · rw [if_pos hs] at h
        simp only [Except.ok.injEq] at h
        subst h
        exact ⟨media, rfl, rfl, rfl⟩
      · rw [if_neg hs] at h
        simp at h
  · intro w items out h
    unfold createPlaylistItems at h ⊢
    cases hev : everyValid items with
    | error e => rw [hev] at h; simp at h
    | ok b =>
      cases b with
      | false => rw [hev] at h; simp at h
      | true =>
        rw [hev] at h
        simp only [hev]
        cases hnp : (processGroups w (inputProps items) (inputKeys items)).2 with
        | error e => rw [hnp] at h; simp at h
        | ok newProps =>
          rw [hnp] at h
          simp only [hnp]
          intro it hit
          have hmi := materializeItems_spec newProps
            (processGroups w (inputProps items) (inputKeys items)).1
          rcases (hmi.2.2 out h).2 it hit with ⟨p, hpmem, ha, ht⟩
          rcases processGroups_out (inputProps items) (inputKeys items) w newProps hnp p hpmem
            with ⟨pr, hprm, mm, hmm, hsid, hpe⟩
          refine ⟨pr, mm, inputProps_mem items pr hprm, ?_, hsid, ?_, ?_⟩
          · rw [hmi.2.1]
            exact hmm
          · rw [ha, hpe]
            rfl
          · rw [ht, hpe]
            rfl

/-- Witness for C10: `propsR` (artist absent, title empty) over `media7`
defaults both labels from the media, and `createItem` on `pw9` stores
`cItemR` with the defaults from the resolved media. -/
theorem item_defaults_artist_title_witness :
    (toPlaylistItem propsR media7).artist = media7.artist ∧
    (toPlaylistItem propsR media7).title = media7.title ∧
    (∃ m, (getMedia pw9 (jsToString propsR.sourceType) (jsToString propsR.sourceID)).2 = .ok m ∧
      cItemR.artist = strOr propsR.artist m.artist ∧
      cItemR.title = strOr propsR.title m.title) :=
  ⟨(item_defaults_artist_title.1 propsR media7).1 (Or.inl rfl),
   (item_defaults_artist_title.1 propsR media7).2.2.1 (Or.inr rfl),
   item_defaults_artist_title.2.1 pw9 propsR cItemR (by decide)⟩

/-- Witness for C9: adding `citems9` to `pw9` and removing the two added
ids (2 and 3) restores the playlist to `[1]`. -/
theorem add_remove_roundtrip_witness :
    (removePlaylistItems cW9 "p"
      (cRes9.added.map (fun it : StoredItem => toString it.id))).2 = .ok () ∧
    playlistMedia (removePlaylistItems cW9 "p"
      (cRes9.added.map (fun it : StoredItem => toString it.id))).1 "p"
      = playlistMedia pw9 "p" :=
  add_remove_roundtrip pw9 "p" citems9 none cRes9 cW9 rfl (by decide)

end Playlists

end UWCore
